import Mathlib

/-!
Verification of the document-set equivalence engine of MongoPLSQL-Bridge
(`src/query-tests/scripts/compare-results.py`).

The engine compares two JSON result sets (MongoDB vs Oracle).  We embed the
Python values manipulated by the script as the mutually inductive type
`Value` / `VList` / `VDict` below, and translate each Python function of the
script into a Lean function of the same name.

Modelling conventions, stated once here:
* Python numbers: `int` is modelled by `ℤ`; `float` is modelled by `ℚ`.
  A binary64 float is a rational, so `ℚ` is a superset of the real float
  domain; decimal literals from the test suite (such as `1.00005`) are
  modelled by the exact rational they denote.  The lossy `float(int)`
  conversions performed by the numeric-tolerance step (line 152) are
  modelled explicitly by `floatOfInt` (round to nearest binary64, ties to
  even); arithmetic BETWEEN floats is exact-rational.  `float` special
  values (`inf`, `nan`), the `OverflowError` of `float(n)` for `|n| ≥
  2^1024`, and digit-group underscores accepted by Python's `float()` are
  outside this model.
* Python dicts are modelled by association lists (`VDict`).  A genuine
  Python dict never has duplicate keys; `wfValue` below characterizes the
  values that correspond to real Python data.
* `str(x)` / `repr(x)` on floats is Python's shortest-roundtrip decimal
  rendering of a binary64; on the `ℚ` model it is rendered as the exact
  decimal expansion (up to 17 fractional digits), which agrees with Python
  on the small literals used in the claims, and scientific notation is not
  modelled.
* Exceptions are modelled with `Option`/`Except`: a `none`/`.error` result
  marks the places where the Python code raises.
-/

namespace MPB

mutual

/-- A Python/JSON value as manipulated by compare-results.py:
None, bool, int, float, str, list, dict. -/
inductive Value where
  | null : Value
  | bool (b : Bool) : Value
  | int (n : ℤ) : Value
  | float (q : ℚ) : Value
  | str (s : String) : Value
  | list (xs : VList) : Value
  | dict (kvs : VDict) : Value
  deriving DecidableEq

/-- A Python list of values. -/
inductive VList where
  | nil : VList
  | cons (hd : Value) (tl : VList) : VList
  deriving DecidableEq

/-- A Python dict: insertion-ordered association list of string keys. -/
inductive VDict where
  | nil : VDict
  | cons (k : String) (v : Value) (tl : VDict) : VDict
  deriving DecidableEq

end

/-- `d[k]` lookup: first binding of `k` (Python dicts have unique keys). -/
def VDict.find : VDict → String → Option Value
  | .nil, _ => none
  | .cons k v tl, key => if k = key then some v else VDict.find tl key

/-- `len(d)` for a dict with unique keys. -/
def VDict.len : VDict → Nat
  | .nil => 0
  | .cons _ _ tl => 1 + VDict.len tl

/-- `list(d.keys())`. -/
def VDict.keys : VDict → List String
  | .nil => []
  | .cons k _ tl => k :: VDict.keys tl

/-- `d[k] = v` on a Python dict: overwrite in place if the key exists
(keeping its position), else append at the end. -/
def VDict.upsert (key : String) (v : Value) : VDict → VDict
  | .nil => .cons key v .nil
  | .cons k w tl =>
      if k = key then .cons k v tl else .cons k w (VDict.upsert key v tl)

/-- Membership of a (key, value) binding in a dict. -/
def VDict.entryMem (key : String) (v : Value) : VDict → Prop
  | .nil => False
  | .cons k w tl => (k = key ∧ w = v) ∨ VDict.entryMem key v tl

def VDict.decEntryMem (key : String) (v : Value) :
    (d : VDict) → Decidable (VDict.entryMem key v d)
  | .nil => isFalse (fun h => h)
  | .cons _ _ tl => @instDecidableOr _ _ _ (VDict.decEntryMem key v tl)

instance (key : String) (v : Value) (d : VDict) :
    Decidable (VDict.entryMem key v d) := VDict.decEntryMem key v d

/-- `VList` as a Lean list. -/
def VList.toList : VList → List Value
  | .nil => []
  | .cons x tl => x :: VList.toList tl

/-- `VDict` as a Lean association list. -/
def VDict.toList : VDict → List (String × Value)
  | .nil => []
  | .cons k v tl => (k, v) :: VDict.toList tl

/-- The keys of a list have no duplicates. -/
def nodupB : List String → Bool
  | [] => true
  | k :: rest => !(rest.contains k) && nodupB rest

mutual

/-- The values that correspond to genuine Python data: every dict
(at any depth) has pairwise distinct keys. -/
def wfValue : Value → Bool
  | .null => true
  | .bool _ => true
  | .int _ => true
  | .float _ => true
  | .str _ => true
  | .list xs => wfVList xs
  | .dict kvs => nodupB (VDict.keys kvs) && wfVDict kvs

def wfVList : VList → Bool
  | .nil => true
  | .cons x tl => wfValue x && wfVList tl

def wfVDict : VDict → Bool
  | .nil => true
  | .cons _ v tl => wfValue v && wfVDict tl

end

/-! ### Python `==` (native deep equality)

`values_equal` starts with `if mongo_val == oracle_val: return True`.
Python `==` across our domain: `True == 1`, `1 == 1.0` (numeric values
compare numerically, and `bool` is a subtype of `int`), strings compare to
strings only, `None` only to `None`, lists elementwise, dicts by equal key
sets and equal values per key. -/

mutual

def pyEq : Value → Value → Bool
  | .null, .null => true
  | .bool a, .bool b => a == b
  | .bool a, .int n => ((if a then 1 else 0 : ℤ) == n)
  | .bool a, .float q => ((if a then 1 else 0 : ℚ) == q)
  | .int n, .bool b => (n == (if b then 1 else 0 : ℤ))
  | .float q, .bool b => (q == (if b then 1 else 0 : ℚ))
  | .int a, .int b => a == b
  | .int a, .float b => ((a : ℚ) == b)
  | .float a, .int b => (a == (b : ℚ))
  | .float a, .float b => a == b
  | .str a, .str b => a == b
  | .list xs, .list ys => pyEqList xs ys
  | .dict a, .dict b => (VDict.len a == VDict.len b) && pyEqEntries a b
  | _, _ => false

def pyEqList : VList → VList → Bool
  | .nil, .nil => true
  | .cons x xs, .cons y ys => pyEq x y && pyEqList xs ys
  | _, _ => false

/-- `all(b[k] == a[k] for k in a)` part of Python dict equality. -/
def pyEqEntries : VDict → VDict → Bool
  | .nil, _ => true
  | .cons k v tl, b =>
      (match VDict.find b k with
       | some w => pyEq v w
       | none => false) && pyEqEntries tl b

end

/-! ### String helpers (Python `str.strip`, `str.upper`, quote stripping) -/

/-- Drop the longest run of characters satisfying `p` at the end of a list. -/
def dropTrailIf (p : Char → Bool) : List Char → List Char
  | [] => []
  | c :: rest =>
      match dropTrailIf p rest with
      | [] => if p c then [] else [c]
      | r => c :: r

/-- Strip characters satisfying `p` from both ends (Python `str.strip`). -/
def stripChars (p : Char → Bool) (s : String) : String :=
  String.mk (dropTrailIf p (s.data.dropWhile p))

/-- Python `str.strip()` (whitespace at both ends). -/
def pyStrip (s : String) : String := stripChars (fun c => c.isWhitespace) s

/-- `s.upper()` (character-wise; ASCII, as in the keys handled here). -/
def upperStr (s : String) : String := String.mk (s.data.map Char.toUpper)

/-- `s.lower()` (character-wise; ASCII). -/
def lowerStr (s : String) : String := String.mk (s.data.map Char.toLower)

/-- `s.startswith(pre)`. -/
def pyStartsWith (s pre : String) : Bool := pre.data.isPrefixOf s.data

/-- `v.strip() if v else v` (lines 55 and 62 of compare-results.py). -/
def stripIfNonempty (s : String) : String := if s = "" then s else pyStrip s

/-- Key canonicalization, inlined in `normalize_doc` (lines 79-89):
`k.strip(double-quote).strip(single-quote).upper()`, then the alias table
`_ID -> ID`, `GRP_ID -> ID`, `CNT -> COUNT`. -/
def canonKey (k : String) : String :=
  let k1 := stripChars (fun c => c == '"') k
  let k2 := stripChars (fun c => c == '\x27') k1
  let u := upperStr k2
  if u = "_ID" then "ID"
  else if u = "GRP_ID" then "ID"
  else if u = "CNT" then "COUNT"
  else u

/-! ### Numeric helpers: `round(x, 6)` and `float(s)` -/

/-- Python `round` to an integer: nearest, ties to even. -/
def roundHalfEven (q : ℚ) : ℤ :=
  let f := ⌊q⌋
  let r := q - (f : ℚ)
  if r < 1/2 then f
  else if 1/2 < r then f + 1
  else if f % 2 = 0 then f else f + 1

/-- `round(float(v), 6)` (line 50): round to 6 fractional decimal digits. -/
def round6 (q : ℚ) : ℚ := (roundHalfEven (q * 1000000) : ℚ) / 1000000

/-- Digits of a decimal-digit run, as a natural number. -/
def digitsVal (ds : List Char) : ℕ :=
  ds.foldl (fun acc c => 10 * acc + c.toNat - '0'.toNat) 0

/-- Parse an optional exponent suffix (`e`/`E`, optional sign, digits);
returns the whole-string condition for Python `float()`. -/
def parseExp (cs : List Char) : Option ℤ :=
  match cs with
  | [] => some 0
  | c :: rest =>
      if c = 'e' ∨ c = 'E' then
        let sr : ℤ × List Char :=
          match rest with
          | '+' :: r => (1, r)
          | '-' :: r => (-1, r)
          | r => (1, r)
        let (ds, rest2) := sr.2.span (fun c => c.isDigit)
        if ds.isEmpty ∨ ¬rest2.isEmpty then none
        else some (sr.1 * (digitsVal ds : ℤ))
      else none

/-- Parse an unsigned decimal mantissa `digits[.digits][exp]`. -/
def parseMantissa (cs : List Char) : Option ℚ :=
  let (ip, r1) := cs.span (fun c => c.isDigit)
  let pr : List Char × List Char :=
    match r1 with
    | '.' :: r => r.span (fun c => c.isDigit)
    | _ => ([], r1)
  let fp := pr.1
  let r2 := pr.2
  if ip.isEmpty ∧ fp.isEmpty then none
  else
    let mant : ℚ := (digitsVal ip : ℚ) + (digitsVal fp : ℚ) / 10 ^ fp.length
    match parseExp r2 with
    | some e => some (mant * 10 ^ e)
    | none => none

/-- Python `float(s)` on a string (lines 58-61): strip whitespace, optional
sign, decimal mantissa with optional exponent.  `none` models `ValueError`.
(`inf`/`nan` and underscore digit separators are outside the `ℚ` model.) -/
def tryFloat (s : String) : Option ℚ :=
  match (pyStrip s).data with
  | '+' :: rest => parseMantissa rest
  | '-' :: rest => (parseMantissa rest).map (fun q => -q)
  | cs => parseMantissa cs

/-! ### Python `str()` / `repr()` / `json.dumps(..., sort_keys=True)`

These render values to text for array-element set comparison (lines
160-168), sort keys (`str(...)`, lines 207-210, 241-242) and mismatch
diagnostics (f-string at lines 195-196). -/

/-- Fractional decimal digits of `q` (with `0 ≤ q < 1`), up to `n` digits,
stopping at an exact expansion. -/
def decimalFrac : ℚ → ℕ → List Char
  | _, 0 => []
  | q, n + 1 =>
      if q = 0 then []
      else
        let d := (⌊q * 10⌋).toNat
        Nat.digitChar d :: decimalFrac (q * 10 - (d : ℚ)) n

/-- `str(x)` / `repr(x)` of a Python float, on the `ℚ` model: exact decimal
expansion (17 fractional digits at most, trailing zeros omitted, `.0` for
integral values).  Scientific notation for very large/small magnitudes is
not modelled. -/
def floatRepr (q : ℚ) : String :=
  let sign := if q < 0 then "-" else ""
  let a := |q|
  let ds := decimalFrac (a - (⌊a⌋ : ℚ)) 17
  sign ++ toString (⌊a⌋).toNat ++ "." ++ (if ds.isEmpty then "0" else String.mk ds)

/-- Escape one character for a quoted string rendering (backslash, the
quote character and common control characters; `\xNN`/`\uNNNN` escapes of
other non-printable characters are not modelled). -/
def escChar (quote : Char) (c : Char) : List Char :=
  if c = '\\' then ['\\', '\\']
  else if c = quote then ['\\', quote]
  else if c = '\n' then ['\\', 'n']
  else if c = '\r' then ['\\', 'r']
  else if c = '\t' then ['\\', 't']
  else [c]

/-- `repr(s)` of a Python string: single quotes, unless the string contains
a single quote and no double quote. -/
def strRepr (s : String) : String :=
  let q : Char := if s.data.contains '\x27' && !(s.data.contains '"') then '"' else '\x27'
  String.mk (q :: s.data.foldr (fun c acc => escChar q c ++ acc) [q])

/-- JSON string literal rendering (`json.dumps` on a `str`). -/
def jsonQuote (s : String) : String :=
  String.mk ('"' :: s.data.foldr (fun c acc => escChar '"' c ++ acc) ['"'])

/-- Overwrite-or-append on rendered (key, rendered value) pairs: the shape
of Python dict construction (first-occurrence position, last-write value). -/
def upsertPair (k v : String) : List (String × String) → List (String × String)
  | [] => [(k, v)]
  | (k1, v1) :: tl =>
      if k1 = k then (k1, v) :: tl else (k1, v1) :: upsertPair k v tl

/-- Collapse duplicate keys the way Python dict construction does. -/
def dedupPairs (l : List (String × String)) : List (String × String) :=
  l.foldl (fun acc p => upsertPair p.1 p.2 acc) []

mutual

/-- `repr(v)` (and `str(v)` for non-strings). -/
def pyRepr : Value → String
  | .null => "None"
  | .bool b => if b then "True" else "False"
  | .int n => toString n
  | .float q => floatRepr q
  | .str s => strRepr s
  | .list xs => "[" ++ String.intercalate ", " (pyReprList xs) ++ "]"
  | .dict kvs =>
      let es := dedupPairs (pyReprEntries kvs)
      "\x7b" ++
        String.intercalate ", " (es.map (fun p => strRepr p.1 ++ ": " ++ p.2)) ++
        "\x7d"

def pyReprList : VList → List String
  | .nil => []
  | .cons x tl => pyRepr x :: pyReprList tl

def pyReprEntries : VDict → List (String × String)
  | .nil => []
  | .cons k v tl => (k, pyRepr v) :: pyReprEntries tl

end

/-- Python `str(v)`. -/
def pyStr : Value → String
  | .str s => s
  | v => pyRepr v

mutual

/-- `json.dumps(v, sort_keys=True)` (line 162): compact JSON text with
`", "` / `": "` separators and keys in sorted order. -/
def jsonDumps : Value → String
  | .null => "null"
  | .bool b => if b then "true" else "false"
  | .int n => toString n
  | .float q => floatRepr q
  | .str s => jsonQuote s
  | .list xs => "[" ++ String.intercalate ", " (jsonDumpsList xs) ++ "]"
  | .dict kvs =>
      let es := (dedupPairs (jsonEntries kvs)).mergeSort (fun a b => decide (a.1 ≤ b.1))
      "\x7b" ++
        String.intercalate ", " (es.map (fun p => jsonQuote p.1 ++ ": " ++ p.2)) ++
        "\x7d"

def jsonDumpsList : VList → List String
  | .nil => []
  | .cons x tl => jsonDumps x :: jsonDumpsList tl

def jsonEntries : VDict → List (String × String)
  | .nil => []
  | .cons k v tl => (k, jsonDumps v) :: jsonEntries tl

end

/-! ### The Value Equality Oracle (`values_equal`, lines 112-174) -/

/-- `normalize_bool` (lines 94-109): booleans pass through; the strings
`"true"`/`"false"` (case-insensitive) and the numbers equal to 1/0 map to
booleans; everything else is returned unchanged. -/
def normalize_bool : Value → Value
  | .bool b => .bool b
  | .str s =>
      if lowerStr s = "true" then .bool true
      else if lowerStr s = "false" then .bool false
      else .str s
  | .int n =>
      if n = 1 then .bool true else if n = 0 then .bool false else .int n
  | .float q =>
      if q = 1 then .bool true else if q = 0 then .bool false else .float q
  | v => v

/-- `type(v).__name__` for our domain. -/
def typeName : Value → String
  | .null => "NoneType"
  | .bool _ => "bool"
  | .int _ => "int"
  | .float _ => "float"
  | .str _ => "str"
  | .list _ => "list"
  | .dict _ => "dict"

/-- `isinstance(v, (int, float)) and not isinstance(v, bool)`. -/
def isNum : Value → Bool
  | .int _ => true
  | .float _ => true
  | _ => false

/-- The numeric value of an int/float (excluding booleans). -/
def asNum? : Value → Option ℚ
  | .int n => some (n : ℚ)
  | .float q => some q
  | _ => none

/-- Strict type gate (lines 126-135): in strict mode, unless both values
are numbers, differing runtime type names decide inequality. -/
def strictGate (m o : Value) (st : Bool) : Bool :=
  st && !(isNum m && isNum o) && (typeName m != typeName o)

/-- Lines 143-147: push both values through `normalize_bool` and compare,
provided both coerce to booleans. -/
def looseBoolEq (m o : Value) : Bool :=
  match normalize_bool m, normalize_bool o with
  | .bool a, .bool b => a == b
  | _, _ => false

/-- Boolean-equality step (lines 137-147): if both values are booleans,
equal iff identical; otherwise, in loose mode only, both values are pushed
through `normalize_bool` and compared if both coerce to booleans. -/
def boolHit (m o : Value) (st : Bool) : Bool :=
  match m, o with
  | .bool a, .bool b => a == b
  | _, _ => if st then false else looseBoolEq m o

/-- `float(n)` on an int (line 152): the binary64 value nearest to `n`,
ties to even.  Exact for `|n| ≤ 2^53`; above that, `n` is rounded to the
nearest multiple of its ulp `2^(⌊log2 |n|⌋ - 52)`, so distinct large
integers can collapse to the same float.  `ulpExp fuel a` computes
`⌊log2 a⌋ - 52` for `a > 2^53` by repeated halving, structurally (fuel
1100 covers every magnitude below `2^1153`, far past the `2^1024` bound
at which Python raises `OverflowError` instead of returning a float; that
error path is not modelled — `values_equal` stays Bool-valued — and no
claim statement quantifies over such magnitudes). -/
def ulpExp : ℕ → ℕ → ℕ
  | 0, _ => 0
  | f + 1, a => if a < 2 ^ 53 then 0 else ulpExp f (a / 2) + 1

def floatOfInt (n : ℤ) : ℚ :=
  if n.natAbs ≤ 2 ^ 53 then (n : ℚ)
  else
    let k := ulpExp 1100 n.natAbs
    ((roundHalfEven ((n : ℚ) / 2 ^ k) : ℤ) : ℚ) * 2 ^ k

/-- The `float()` conversions of line 152 applied to a numeric value:
ints are rounded to binary64, floats are binary64 already (identity). -/
def pyFloatVal : Value → Option ℚ
  | .int n => some (floatOfInt n)
  | .float q => some q
  | _ => none

/-- Numeric tolerance step (lines 149-153): both numbers (not booleans)
and `abs(float(a) - float(b)) < 0.0001`, with `float()` as `pyFloatVal`. -/
def numHit (m o : Value) : Bool :=
  match pyFloatVal m, pyFloatVal o with
  | some a, some b => decide (|a - b| < 1/10000)
  | _, _ => false

/-- Python set equality for sets built from two string lists. -/
def strSetEq (xs ys : List String) : Bool :=
  xs.all ys.contains && ys.all xs.contains

/-- Canonical string encoding of an array element (lines 161-168):
key-sorted JSON text for dicts, `str(x)` for everything else. -/
def encodeElem : Value → String
  | .dict kvs => jsonDumps (.dict kvs)
  | v => pyStr v

/-- Array-as-set step (lines 155-172): equal lengths required, then the
sets of canonical element encodings are compared.  (The `try`/`except`
around the encoding never fires on our value domain: both encodings are
total.) -/
def arrHit (m o : Value) : Bool :=
  match m, o with
  | .list xs, .list ys =>
      let lx := xs.toList
      let ly := ys.toList
      (lx.length == ly.length) &&
        strSetEq (lx.map encodeElem) (ly.map encodeElem)
  | _, _ => false

/-- `values_equal(mongo_val, oracle_val, strict_types)` (lines 112-174):
Python `==` fast path; strict type gate; then the boolean, numeric and
array steps, each of which can only decide equality (a falling-through
step leaves the final `return False` in charge, except the array
length-mismatch early `return False`, which is equivalent to it). -/
def values_equal (mongo_val oracle_val : Value) (strict_types : Bool) : Bool :=
  if pyEq mongo_val oracle_val then true
  else if strictGate mongo_val oracle_val strict_types then false
  else
    boolHit mongo_val oracle_val strict_types ||
    numHit mongo_val oracle_val ||
    arrHit mongo_val oracle_val

/-! ### The Value/Key Normalizer (`normalize_value` / `normalize_doc`,
lines 35-91) -/

mutual

/-- `normalize_value(v, strict_types)` (lines 35-67). -/
def normalize_value (st : Bool) : Value → Value
  | .null => .null
  | .bool b => .bool b
  | .int n => .float (round6 (n : ℚ))
  | .float q => .float (round6 q)
  | .str s =>
      if st then .str (stripIfNonempty s)
      else
        match tryFloat s with
        | some q => .float (round6 q)
        | none => .str (stripIfNonempty s)
  | .list xs => .list (normVList st xs)
  | .dict kvs => .dict (normEntries st VDict.nil kvs)

/-- Element-wise normalization of a list (line 66). -/
def normVList (st : Bool) : VList → VList
  | .nil => .nil
  | .cons x tl => .cons (normalize_value st x) (normVList st tl)

/-- The `normalize_doc` loop (lines 74-90): skip fields whose raw key
starts with `_` (except the raw key `_id`), canonicalize the kept keys,
normalize the values, and write into the result dict in order. -/
def normEntries (st : Bool) (acc : VDict) : VDict → VDict
  | .nil => acc
  | .cons k v tl =>
      if pyStartsWith k "_" && k != "_id" then normEntries st acc tl
      else normEntries st (VDict.upsert (canonKey k) (normalize_value st v) acc) tl

end

/-- `normalize_doc(doc, strict_types)` (lines 70-91): dicts go through the
key/value loop; anything else falls back to `normalize_value`. -/
def normalize_doc (doc : Value) (st : Bool) : Value :=
  match doc with
  | .dict kvs => .dict (normEntries st VDict.nil kvs)
  | v => normalize_value st v

/-! ### The Document Matcher (`docs_match`, lines 177-199)

`docs_match` raises `AttributeError` (caught only in `main`) when a
normalized side is not a dict — `.keys()` at line 183; this is the
`.error` case. -/

/-- Distinct elements of a string list, keeping first occurrences. -/
def dedupFirst (seen : List String) : List String → List String
  | [] => []
  | k :: rest =>
      if seen.contains k then dedupFirst seen rest
      else k :: dedupFirst (k :: seen) rest

/-- `set(mongo_norm.keys()) | set(oracle_norm.keys())` (line 183).  Python
iterates a set in an unspecified (hash-based) order; we fix the
deterministic refinement "keys of the left dict in order, then new keys of
the right dict in order". -/
def unionKeys (a b : VDict) : List String :=
  dedupFirst [] (VDict.keys a ++ VDict.keys b)

/-- The f-string diagnostic of lines 195-196. -/
def fieldMismatchMsg (key : String) (mv ov : Value) : String :=
  "Field \x27" ++ key ++ "\x27 mismatch: MongoDB=" ++ pyStr mv ++ " (" ++
    typeName mv ++ "), Oracle=" ++ pyStr ov ++ " (" ++ typeName ov ++ ")"

/-- The per-key loop of lines 185-197: first failing key produces the
diagnostic (missing keys read as `None` through `.get`). -/
def firstFieldFail (a b : VDict) (st : Bool) : List String → Option String
  | [] => none
  | k :: rest =>
      let mv := (VDict.find a k).getD .null
      let ov := (VDict.find b k).getD .null
      if values_equal mv ov st then firstFieldFail a b st rest
      else some (fieldMismatchMsg k mv ov)

/-- `docs_match(mongo_doc, oracle_doc, strict_types)` (lines 177-199). -/
def docs_match (mongo_doc oracle_doc : Value) (st : Bool) :
    Except Unit (Bool × Option String) :=
  match normalize_doc mongo_doc st, normalize_doc oracle_doc st with
  | .dict a, .dict b =>
      match firstFieldFail a b st (unionKeys a b) with
      | some msg => .ok (false, some msg)
      | none => .ok (true, none)
  | _, _ => .error ()

/-! ### Sort keys and the sorting phase (lines 202-248)

`sorted(xs, key=f)` first evaluates `f` on every element; if any of those
evaluations raises, the exception propagates before the input list is
reassigned.  `trySort` returns `none` in exactly that case.  Python's sort
is stable, as is `List.mergeSort`. -/

/-- The id-like probe list of line 205. -/
def probeKeys : List String := ["_id", "id", "ID", "Id", "grp_id", "GRP_ID"]

/-- First probe key present in the dict, with its value. -/
def findProbe (kvs : VDict) : List String → Option Value
  | [] => none
  | k :: rest =>
      match VDict.find kvs k with
      | some v => some v
      | none => findProbe kvs rest

/-- `get_sort_key(doc)` (lines 202-211).  For a non-dict `doc` the Python
code raises (`TypeError` on `doc[key]` or on `'_id' in doc` for
non-containers, `AttributeError` on `doc.values()`) in every case except
the empty string and the empty list, which fall through `if doc:` to
`return ''`; `none` models the raising cases. -/
def get_sort_key : Value → Option String
  | .dict kvs =>
      match findProbe kvs probeKeys with
      | some v => some (pyStr v)
      | none =>
          match kvs with
          | .nil => some ""
          | .cons _ v _ => some (pyStr v)
  | .str s => if s = "" then some "" else none
  | .list xs =>
      match xs with
      | .nil => some ""
      | _ => none
  | _ => none

/-- `str(x.get(sort_by, ''))` (lines 241-242): `.get` exists only on
dicts; any non-dict element raises `AttributeError`. -/
def sortKeyBy (field : String) : Value → Option String
  | .dict kvs =>
      some (match VDict.find kvs field with
            | some v => pyStr v
            | none => "")
  | _ => none

/-- The key function selected at lines 240-246. -/
def keyFn : Option String → Value → Option String
  | some f => sortKeyBy f
  | none => get_sort_key

/-- `sorted(docs, key=f)`: `none` when some key evaluation raises,
otherwise the stable sort by the string key. -/
def trySort (f : Value → Option String) (docs : List Value) :
    Option (List Value) :=
  if docs.all (fun d => (f d).isSome) then
    some ((((docs.map (fun d => ((f d).getD "", d))).mergeSort
      (fun a b => decide (a.1 ≤ b.1))).map (fun p => p.2)))
  else none

/-- The `try`/`except: pass` block of lines 239-248.  The left collection
is sorted first and reassigned; if sorting the right collection then
raises, the partially updated state (sorted left, original right) is kept. -/
def sortPhase (m o : List Value) (sb : Option String) :
    List Value × List Value :=
  match trySort (keyFn sb) m with
  | none => (m, o)
  | some m1 =>
      match trySort (keyFn sb) o with
      | none => (m1, o)
      | some o1 => (m1, o1)

/-! ### The Dataset Comparator (`compare_results`, lines 214-257) -/

/-- `"STRICT_MATCH"` or `"LOOSE_MATCH"` by mode (lines 235, 256). -/
def matchLabel (st : Bool) : String :=
  if st then "STRICT_MATCH" else "LOOSE_MATCH"

/-- The row loop of lines 251-257: fail-fast `DOC_MISMATCH` on the first
non-matching pair, success message once `zip` is exhausted. -/
def matchRows (st : Bool) (okMsg : String) :
    ℕ → List Value → List Value → Except Unit (Bool × String)
  | _, [], _ => .ok (true, okMsg)
  | _, _ :: _, [] => .ok (true, okMsg)
  | i, md :: ms, od :: os => do
      let r ← docs_match md od st
      if r.1 then matchRows st okMsg (i + 1) ms os
      else .ok (false, "DOC_MISMATCH:row=" ++ toString i ++ "," ++ (r.2.getD ""))

/-- The comparison phase after sorting: pair positionally, match each
pair, and report `count` as the (common) collection length. -/
def compareAfterSort (m o : List Value) (st : Bool) :
    Except Unit (Bool × String) :=
  matchRows st (matchLabel st ++ ":count=" ++ toString m.length) 0 m o

/-- `compare_results(mongo_docs, oracle_docs, sort_by, strict_types)`
(lines 214-257). -/
def compare_results (mongo_docs oracle_docs : List Value)
    (sort_by : Option String) (strict_types : Bool) :
    Except Unit (Bool × String) :=
  if mongo_docs.length != oracle_docs.length then
    .ok (false, "COUNT_MISMATCH:MongoDB=" ++ toString mongo_docs.length ++
      ",Oracle=" ++ toString oracle_docs.length)
  else if mongo_docs.length == 0 then
    .ok (true, matchLabel strict_types ++ ":count=0")
  else
    let p := sortPhase mongo_docs oracle_docs sort_by
    compareAfterSort p.1 p.2 strict_types

/-- `compare_with_fallback(mongo_docs, oracle_docs, sort_by)` (lines
260-279): strict first, loose on failure, loose diagnostic on double
failure. -/
def compare_with_fallback (mongo_docs oracle_docs : List Value)
    (sort_by : Option String) : Except Unit (Bool × String × String) := do
  let r1 ← compare_results mongo_docs oracle_docs sort_by true
  if r1.1 then pure (true, r1.2, "strict")
  else do
    let r2 ← compare_results mongo_docs oracle_docs sort_by false
    if r2.1 then pure (true, r2.2, "loose")
    else pure (false, r2.2, "none")

/-! ## Auxiliary definitions used only in the statements of claims -/

/-- Concatenation of two dicts (no key collision handling; used to state
how `normEntries` extends its accumulator). -/
def VDict.append : VDict → VDict → VDict
  | .nil, e => e
  | .cons k v tl, e => .cons k v (VDict.append tl e)

/-- A Number value on which the `float()` conversions of line 152 are
lossless: every float, and ints of magnitude at most `2^53`. -/
def exactNum : Value → Bool
  | .int n => decide (n.natAbs ≤ 2 ^ 53)
  | .float _ => true
  | _ => false

/-- A canonical key that survives re-normalization unchanged: it does not
begin with `_` (so the second pass keeps it) and is a fixpoint of
`canonKey` (so the second pass does not rewrite it). -/
def goodCanonKey (c : String) : Bool :=
  !(pyStartsWith c "_") && (canonKey c == c)

mutual

/-- The domain on which document normalization is idempotent: every kept
field key, at every depth, canonicalizes to a stable non-underscore key
(raw keys such as `"'_x'"` or `'"a"'` violate this). -/
def goodKeys : Value → Bool
  | .null => true
  | .bool _ => true
  | .int _ => true
  | .float _ => true
  | .str _ => true
  | .list xs => goodKeysVList xs
  | .dict kvs => goodKeysVDict kvs

def goodKeysVList : VList → Bool
  | .nil => true
  | .cons x tl => goodKeys x && goodKeysVList tl

def goodKeysVDict : VDict → Bool
  | .nil => true
  | .cons k v tl =>
      (if pyStartsWith k "_" && k != "_id" then true
       else goodCanonKey (canonKey k)) &&
      goodKeys v && goodKeysVDict tl

end

/-- Modelled from the spec: the sorting fallback described at §4.5 step 3
("If sorting raises any error ... fall back to the original input order
unmodified") — BOTH collections keep their original order whenever either
sort raises.  The code (lines 239-248) instead keeps a successfully
sorted left collection when only the right sort raises; this definition
exists to exhibit that difference. -/
def sortPhaseSpec (m o : List Value) (sb : Option String) :
    List Value × List Value :=
  match trySort (keyFn sb) m, trySort (keyFn sb) o with
  | some m1, some o1 => (m1, o1)
  | _, _ => (m, o)

/-- Modelled from the spec: `compare_results` with the spec's version of
the sorting fallback (both collections in original order on any sorting
error).  Identical to `compare_results` in every other respect. -/
def compare_results_spec (mongo_docs oracle_docs : List Value)
    (sort_by : Option String) (strict_types : Bool) :
    Except Unit (Bool × String) :=
  if mongo_docs.length != oracle_docs.length then
    .ok (false, "COUNT_MISMATCH:MongoDB=" ++ toString mongo_docs.length ++
      ",Oracle=" ++ toString oracle_docs.length)
  else if mongo_docs.length == 0 then
    .ok (true, matchLabel strict_types ++ ":count=0")
  else
    let p := sortPhaseSpec mongo_docs oracle_docs sort_by
    compareAfterSort p.1 p.2 strict_types

/-! ## Helper lemmas for idempotence of normalization (C3) -/

theorem dropTrailIf_idem (p : Char → Bool) (l : List Char) :
    dropTrailIf p (dropTrailIf p l) = dropTrailIf p l := by
  induction l with
  | nil => rfl
  | cons c r ih =>
      cases h : dropTrailIf p r with
      | nil =>
          by_cases hc : p c = true
          · simp [dropTrailIf, h, hc]
          · simp [dropTrailIf, h, hc]
      | cons x xs =>
          have hxs : dropTrailIf p (x :: xs) = x :: xs := by
            rw [← h, ih, h]
          have h1 : dropTrailIf p (c :: r) = c :: x :: xs := by
            rw [dropTrailIf, h]
          rw [h1, dropTrailIf, hxs]

theorem dropTrailIf_head (p : Char → Bool) (l : List Char) :
    dropTrailIf p l = [] ∨ (dropTrailIf p l).head? = l.head? := by
  induction l with
  | nil => exact Or.inl rfl
  | cons c r _ =>
      cases h : dropTrailIf p r with
      | nil =>
          by_cases hc : p c = true
          · simp [dropTrailIf, h, hc]
          · simp [dropTrailIf, h, hc]
      | cons x xs => simp [dropTrailIf, h]

theorem dropWhile_head_false (p : Char → Bool) (l : List Char) :
    l.dropWhile p = [] ∨
      ∃ c r, l.dropWhile p = c :: r ∧ p c = false := by
  induction l with
  | nil => exact Or.inl rfl
  | cons c r ih =>
      by_cases hc : p c = true
      · simpa [List.dropWhile_cons, hc] using ih
      · exact Or.inr ⟨c, r, by simp [List.dropWhile_cons, hc], by simpa using hc⟩

theorem stripChars_idem (p : Char → Bool) (s : String) :
    stripChars p (stripChars p s) = stripChars p s := by
  unfold stripChars
  have hdata : (String.mk (dropTrailIf p (s.data.dropWhile p))).data =
      dropTrailIf p (s.data.dropWhile p) := rfl
  rw [hdata]
  have hdw : (dropTrailIf p (s.data.dropWhile p)).dropWhile p =
      dropTrailIf p (s.data.dropWhile p) := by
    rcases dropTrailIf_head p (s.data.dropWhile p) with h | h
    · rw [h]; rfl
    · rcases dropWhile_head_false p s.data with h2 | ⟨c, r, h2, hc⟩
      · rw [h2] at h ⊢
        cases h3 : dropTrailIf p ([] : List Char) with
        | nil => rfl
        | cons y ys => simp [dropTrailIf] at h3
      · rw [h2] at h ⊢
        cases h3 : dropTrailIf p (c :: r) with
        | nil => rfl
        | cons y ys =>
            rw [h3] at h
            simp only [List.head?_cons, Option.some.injEq] at h
            subst h
            simp [List.dropWhile_cons, hc]
  rw [hdw, dropTrailIf_idem]

theorem pyStrip_idem (s : String) : pyStrip (pyStrip s) = pyStrip s :=
  stripChars_idem _ s

theorem stripIfNonempty_idem (s : String) :
    stripIfNonempty (stripIfNonempty s) = stripIfNonempty s := by
  unfold stripIfNonempty
  by_cases h1 : s = ""
  · simp [h1]
  · simp only [h1, if_false]
    by_cases h2 : pyStrip s = ""
    · simp [h2]
    · simp [h2, pyStrip_idem]

theorem pyStrip_stripIfNonempty (s : String) :
    pyStrip (stripIfNonempty s) = pyStrip s := by
  unfold stripIfNonempty
  by_cases h1 : s = ""
  · simp [h1]
  · simp [h1, pyStrip_idem]

theorem tryFloat_stripIfNonempty (s : String) :
    tryFloat (stripIfNonempty s) = tryFloat s := by
  unfold tryFloat
  rw [pyStrip_stripIfNonempty]

theorem roundHalfEven_int (n : ℤ) : roundHalfEven (n : ℚ) = n := by
  unfold roundHalfEven
  norm_num

theorem round6_idem (q : ℚ) : round6 (round6 q) = round6 q := by
  unfold round6
  rw [div_mul_cancel₀ _ (by norm_num : (1000000 : ℚ) ≠ 0), roundHalfEven_int]

theorem VDict.append_nil : ∀ d : VDict, VDict.append d VDict.nil = d
  | .nil => rfl
  | .cons k v tl => congrArg (VDict.cons k v) (VDict.append_nil tl)

theorem VDict.append_cons_nil (k : String) (v : Value) :
    ∀ (d e : VDict),
      VDict.append (VDict.append d (VDict.cons k v VDict.nil)) e =
        VDict.append d (VDict.cons k v e)
  | .nil, _ => rfl
  | .cons k1 v1 tl, e =>
      congrArg (VDict.cons k1 v1) (VDict.append_cons_nil k v tl e)

theorem VDict.keys_append : ∀ (d e : VDict),
    VDict.keys (VDict.append d e) = VDict.keys d ++ VDict.keys e
  | .nil, _ => rfl
  | .cons k _ tl, e => congrArg (k :: ·) (VDict.keys_append tl e)

theorem upsert_entryMem (key : String) (v : Value) :
    ∀ (d : VDict) (c : String) (w : Value),
      VDict.entryMem c w (VDict.upsert key v d) →
      (key = c ∧ v = w) ∨ VDict.entryMem c w d
  | .nil, c, w, hm => by
      rcases hm with h | h
      · exact Or.inl h
      · exact absurd h (fun hx => hx)
  | .cons k w1 tl, c, w, hm => by
      simp only [VDict.upsert] at hm
      by_cases hk : k = key
      · rw [if_pos hk] at hm
        rcases hm with ⟨h1, h2⟩ | h
        · exact Or.inl ⟨hk ▸ h1, h2⟩
        · exact Or.inr (Or.inr h)
      · rw [if_neg hk] at hm
        rcases hm with h | h
        · exact Or.inr (Or.inl h)
        · rcases upsert_entryMem key v tl c w h with h2 | h2
          · exact Or.inl h2
          · exact Or.inr (Or.inr h2)

theorem upsert_fresh (key : String) (v : Value) :
    ∀ d : VDict, key ∉ VDict.keys d →
      VDict.upsert key v d = VDict.append d (VDict.cons key v VDict.nil)
  | .nil, _ => rfl
  | .cons k w tl, hmem => by
      simp only [VDict.keys, List.mem_cons, not_or] at hmem
      simp only [VDict.upsert, VDict.append]
      rw [if_neg (fun h => hmem.1 h.symm), upsert_fresh key v tl hmem.2]

theorem keys_upsert (key : String) (v : Value) :
    ∀ d : VDict,
      VDict.keys (VDict.upsert key v d) =
        if key ∈ VDict.keys d then VDict.keys d
        else VDict.keys d ++ [key]
  | .nil => by simp [VDict.upsert, VDict.keys]
  | .cons k w tl => by
      by_cases hk : k = key
      · subst hk
        simp [VDict.upsert, VDict.keys]
      · have hk2 : ¬key = k := fun h => hk h.symm
        simp only [VDict.upsert, if_neg hk, VDict.keys, keys_upsert key v tl]
        by_cases hmem : key ∈ VDict.keys tl
        · simp [hmem, hk2]
        · simp [hmem, hk2]

theorem nodup_keys_upsert (key : String) (v : Value) (d : VDict)
    (h : (VDict.keys d).Nodup) :
    (VDict.keys (VDict.upsert key v d)).Nodup := by
  rw [keys_upsert]
  by_cases hmem : key ∈ VDict.keys d
  · simpa [hmem] using h
  · rw [if_neg hmem]
    exact List.nodup_append.mpr ⟨h, List.nodup_singleton key,
      fun a ha hb => hmem ((List.mem_singleton.mp hb) ▸ ha)⟩

theorem normEntries_keys_nodup (st : Bool) : ∀ (d acc : VDict),
    (VDict.keys acc).Nodup →
    (VDict.keys (normEntries st acc d)).Nodup
  | .nil, _, h => h
  | .cons k v tl, acc, h => by
      by_cases hdrop : (pyStartsWith k "_" && k != "_id") = true
      · rw [normEntries, if_pos hdrop]
        exact normEntries_keys_nodup st tl acc h
      · rw [normEntries, if_neg hdrop]
        exact normEntries_keys_nodup st tl _ (nodup_keys_upsert _ _ _ h)

theorem normEntries_fixed (st : Bool) : ∀ (d acc : VDict),
    (∀ c w, VDict.entryMem c w d →
      pyStartsWith c "_" = false ∧ canonKey c = c ∧ normalize_value st w = w) →
    (VDict.keys acc ++ VDict.keys d).Nodup →
    normEntries st acc d = VDict.append acc d
  | .nil, acc, _, _ => by rw [normEntries, VDict.append_nil]
  | .cons c w tl, acc, hP, hnd => by
      obtain ⟨hc1, hc2, hc3⟩ := hP c w (Or.inl ⟨rfl, rfl⟩)
      have hdrop : ¬((pyStartsWith c "_" && c != "_id") = true) := by
        simp [hc1]
      rw [normEntries, if_neg hdrop, hc2, hc3]
      have hfresh : c ∉ VDict.keys acc := by
        have hdis := (List.nodup_append.mp (by simpa [VDict.keys] using hnd)).2.2
        exact fun hmem => hdis hmem (List.mem_cons_self c (VDict.keys tl))
      rw [upsert_fresh c w acc hfresh]
      rw [normEntries_fixed st tl (VDict.append acc (VDict.cons c w VDict.nil))
        (fun c' w' hm => hP c' w' (Or.inr hm))
        (by
          rw [VDict.keys_append]
          have : VDict.keys acc ++ VDict.keys (VDict.cons c w VDict.nil) ++ VDict.keys tl =
              VDict.keys acc ++ (c :: VDict.keys tl) := by
            simp [VDict.keys]
          rw [this]
          simpa [VDict.keys] using hnd)]
      exact VDict.append_cons_nil c w acc tl

mutual

theorem normalize_value_idem (st : Bool) : ∀ (v : Value), goodKeys v = true →
    normalize_value st (normalize_value st v) = normalize_value st v
  | .null, _ => rfl
  | .bool _, _ => rfl
  | .int _, _ => by simp [normalize_value, round6_idem]
  | .float _, _ => by simp [normalize_value, round6_idem]
  | .str s, _ => by
      cases st with
      | true => simp [normalize_value, stripIfNonempty_idem]
      | false =>
          cases hf : tryFloat s with
          | some q => simp [normalize_value, hf, round6_idem]
          | none =>
              simp [normalize_value, hf, tryFloat_stripIfNonempty,
                stripIfNonempty_idem]
  | .list xs, h => by
      simp only [goodKeys] at h
      simp [normalize_value, normVList_idem st xs h]
  | .dict kvs, h => by
      simp only [goodKeys] at h
      have hgood := normEntries_good st kvs VDict.nil h
        (fun c w hm0 => absurd hm0 (fun hx => hx))
      have hnodup := normEntries_keys_nodup st kvs VDict.nil List.nodup_nil
      simp only [normalize_value]
      rw [normEntries_fixed st (normEntries st VDict.nil kvs) VDict.nil hgood
        (by simpa [VDict.keys] using hnodup)]
      rfl

theorem normVList_idem (st : Bool) : ∀ (xs : VList), goodKeysVList xs = true →
    normVList st (normVList st xs) = normVList st xs
  | .nil, _ => rfl
  | .cons x tl, h => by
      simp only [goodKeysVList, Bool.and_eq_true] at h
      simp [normVList, normalize_value_idem st x h.1, normVList_idem st tl h.2]

theorem normEntries_good (st : Bool) : ∀ (d acc : VDict),
    goodKeysVDict d = true →
    (∀ c w, VDict.entryMem c w acc →
      pyStartsWith c "_" = false ∧ canonKey c = c ∧ normalize_value st w = w) →
    ∀ c w, VDict.entryMem c w (normEntries st acc d) →
      pyStartsWith c "_" = false ∧ canonKey c = c ∧ normalize_value st w = w
  | .nil, acc, _, hacc, c, w, hm => hacc c w (by rwa [normEntries] at hm)
  | .cons k v tl, acc, h, hacc, c, w, hm => by
      rw [goodKeysVDict] at h
      by_cases hdrop : (pyStartsWith k "_" && k != "_id") = true
      · rw [if_pos hdrop] at h
        simp only [Bool.true_and, Bool.and_eq_true] at h
        rw [normEntries, if_pos hdrop] at hm
        exact normEntries_good st tl acc h.2 hacc c w hm
      · rw [if_neg hdrop] at h
        simp only [Bool.and_eq_true] at h
        obtain ⟨⟨hk, hv⟩, htl⟩ := h
        rw [normEntries, if_neg hdrop] at hm
        refine normEntries_good st tl _ htl ?_ c w hm
        intro c' w' hmem
        rcases upsert_entryMem (canonKey k) (normalize_value st v) acc c' w' hmem with
          ⟨hc', hw'⟩ | hold
        · subst hc'; subst hw'
          simp only [goodCanonKey, Bool.and_eq_true, Bool.not_eq_true',
            beq_iff_eq] at hk
          exact ⟨hk.1, hk.2, normalize_value_idem st v hv⟩
        · exact hacc c' w' hold

end

/-! ## Helper lemmas for symmetry of the Value Equality Oracle (C10) -/

theorem beqComm {α : Type} [BEq α] [LawfulBEq α] (a b : α) :
    (a == b) = (b == a) := Bool.beq_comm

theorem bneComm {α : Type} [BEq α] [LawfulBEq α] (a b : α) :
    (a != b) = (b != a) := by
  simp only [bne]
  rw [beqComm]

theorem nodupB_iff : ∀ l : List String, nodupB l = true ↔ l.Nodup := by
  intro l
  induction l with
  | nil => simp [nodupB]
  | cons k rest ih =>
      simp [nodupB, List.nodup_cons, ih, List.elem_iff]

theorem VDict.len_eq_keys_length : ∀ d : VDict,
    VDict.len d = (VDict.keys d).length
  | .nil => rfl
  | .cons _ _ tl => by
      simp [VDict.len, VDict.keys, VDict.len_eq_keys_length tl]
      omega

theorem find_some_mem_keys : ∀ (d : VDict) (k : String) (v : Value),
    VDict.find d k = some v → k ∈ VDict.keys d
  | .nil, _, _, h => by simp [VDict.find] at h
  | .cons k1 v1 tl, k, v, h => by
      simp only [VDict.find] at h
      by_cases hk : k1 = k
      · exact hk ▸ List.mem_cons_self k1 (VDict.keys tl)
      · rw [if_neg hk] at h
        exact List.mem_cons_of_mem k1 (find_some_mem_keys tl k v h)

theorem mem_keys_exists_entry : ∀ (d : VDict) (k : String),
    k ∈ VDict.keys d → ∃ v, VDict.entryMem k v d
  | .nil, k, h => by simp [VDict.keys] at h
  | .cons k1 v1 tl, k, h => by
      rcases List.mem_cons.mp h with h1 | h1
      · exact ⟨v1, Or.inl ⟨h1.symm, rfl⟩⟩
      · obtain ⟨v, hv⟩ := mem_keys_exists_entry tl k h1
        exact ⟨v, Or.inr hv⟩

theorem entryMem_mem_keys : ∀ (d : VDict) (k : String) (v : Value),
    VDict.entryMem k v d → k ∈ VDict.keys d
  | .nil, _, _, h => absurd h (fun hx => hx)
  | .cons k1 _ tl, k, v, h => by
      rcases h with ⟨h1, _⟩ | h1
      · exact h1 ▸ List.mem_cons_self k1 (VDict.keys tl)
      · exact List.mem_cons_of_mem k1 (entryMem_mem_keys tl k v h1)

theorem entryMem_find_nodup : ∀ (d : VDict), (VDict.keys d).Nodup →
    ∀ k v, VDict.entryMem k v d → VDict.find d k = some v
  | .nil, _, k, v, h => absurd h (fun hx => hx)
  | .cons k1 v1 tl, hnd, k, v, h => by
      simp only [VDict.keys, List.nodup_cons] at hnd
      rcases h with ⟨h1, h2⟩ | h1
      · simp [VDict.find, h1, h2]
      · have hk : ¬k1 = k := by
          intro he
          exact hnd.1 (he ▸ entryMem_mem_keys tl k v h1)
        simp only [VDict.find, if_neg hk]
        exact entryMem_find_nodup tl hnd.2 k v h1

theorem wfVDict_entry : ∀ (d : VDict), wfVDict d = true →
    ∀ k v, VDict.entryMem k v d → wfValue v = true
  | .nil, _, k, v, h => absurd h (fun hx => hx)
  | .cons _ v1 tl, hwf, k, v, h => by
      simp only [wfVDict, Bool.and_eq_true] at hwf
      rcases h with ⟨_, h2⟩ | h1
      · exact h2 ▸ hwf.1
      · exact wfVDict_entry tl hwf.2 k v h1

theorem entryMem_sizeOf : ∀ (d : VDict) (k : String) (v : Value),
    VDict.entryMem k v d → sizeOf v < sizeOf d
  | .nil, _, _, h => absurd h (fun hx => hx)
  | .cons k1 v1 tl, k, v, h => by
      rcases h with ⟨_, h2⟩ | h1
      · subst h2; simp; omega
      · have := entryMem_sizeOf tl k v h1
        simp; omega

theorem pyEqEntries_iff : ∀ (a b : VDict), pyEqEntries a b = true ↔
    ∀ k v, VDict.entryMem k v a →
      ∃ w, VDict.find b k = some w ∧ pyEq v w = true
  | .nil, b => by
      constructor
      · intro _ k v h
        exact absurd h (fun hx => hx)
      · intro _; rfl
  | .cons k1 v1 tl, b => by
      constructor
      · intro h k v hm
        rw [pyEqEntries, Bool.and_eq_true] at h
        rcases hm with ⟨hk, hv⟩ | hm1
        · cases hf : VDict.find b k1 with
          | none => rw [hf] at h; exact absurd h.1 (by simp)
          | some w =>
              rw [hf] at h
              exact ⟨w, hk ▸ hf, hv ▸ h.1⟩
        · exact (pyEqEntries_iff tl b).mp h.2 k v hm1
      · intro h
        rw [pyEqEntries, Bool.and_eq_true]
        obtain ⟨w, hw, hpy⟩ := h k1 v1 (Or.inl ⟨rfl, rfl⟩)
        constructor
        · rw [hw]; exact hpy
        · exact (pyEqEntries_iff tl b).mpr
            (fun k v hm => h k v (Or.inr hm))

theorem keys_subset_rev (la lb : List String) (ha : la.Nodup) (hb : lb.Nodup)
    (hsub : ∀ k ∈ la, k ∈ lb) (hlen : la.length = lb.length) :
    ∀ k ∈ lb, k ∈ la := by
  intro k hk
  have hfs : la.toFinset ⊆ lb.toFinset := by
    intro x hx
    exact List.mem_toFinset.mpr (hsub x (List.mem_toFinset.mp hx))
  have hcard : lb.toFinset.card ≤ la.toFinset.card := by
    rw [List.toFinset_card_of_nodup ha, List.toFinset_card_of_nodup hb]
    exact hlen.ge
  have : la.toFinset = lb.toFinset := Finset.eq_of_subset_of_card_le hfs hcard
  exact List.mem_toFinset.mp (this ▸ List.mem_toFinset.mpr hk)

theorem sizeOf_value_pos : ∀ v : Value, 1 ≤ sizeOf v := by
  intro v
  cases v <;> (simp; try omega)

theorem sizeOf_vlist_pos : ∀ xs : VList, 1 ≤ sizeOf xs := by
  intro xs
  cases xs <;> (simp; try omega)

theorem sizeOf_vdict_pos : ∀ d : VDict, 1 ≤ sizeOf d := by
  intro d
  cases d <;> (simp; try omega)

theorem pyEq_symm_aux : ∀ N : ℕ,
    (∀ v w : Value, sizeOf v + sizeOf w ≤ N →
      wfValue v = true → wfValue w = true → pyEq v w = pyEq w v) ∧
    (∀ xs ys : VList, sizeOf xs + sizeOf ys ≤ N →
      wfVList xs = true → wfVList ys = true → pyEqList xs ys = pyEqList ys xs) ∧
    (∀ a b : VDict, sizeOf a + sizeOf b ≤ N →
      (VDict.keys a).Nodup → (VDict.keys b).Nodup →
      wfVDict a = true → wfVDict b = true →
      VDict.len a = VDict.len b →
      pyEqEntries a b = true → pyEqEntries b a = true) := by
  intro N
  induction N with
  | zero =>
      refine ⟨fun v w h _ _ => ?_, fun xs ys h _ _ => ?_, fun a b h _ _ _ _ _ _ => ?_⟩
      · have := sizeOf_value_pos v; have := sizeOf_value_pos w; omega
      · have := sizeOf_vlist_pos xs; have := sizeOf_vlist_pos ys; omega
      · have := sizeOf_vdict_pos a; have := sizeOf_vdict_pos b; omega
  | succ n IH =>
      obtain ⟨IHv, IHl, IHd⟩ := IH
      refine ⟨?_, ?_, ?_⟩
      · -- Values
        intro v w hsz hv hw
        cases v <;> cases w <;> (try rfl) <;> (try exact beqComm _ _)
        case list.list xs ys =>
            simp only [pyEq]
            have h1 : sizeOf xs + sizeOf ys ≤ n := by simp at hsz; omega
            exact IHl xs ys h1 (by simpa [wfValue] using hv) (by simpa [wfValue] using hw)
        case dict.dict a b =>
            simp only [pyEq]
            simp only [wfValue, Bool.and_eq_true] at hv hw
            by_cases hlen : VDict.len a = VDict.len b
            · have hsz2 : sizeOf a + sizeOf b ≤ n := by simp at hsz; omega
              have hnda := (nodupB_iff _).mp hv.1
              have hndb := (nodupB_iff _).mp hw.1
              have hE : pyEqEntries a b = pyEqEntries b a := by
                cases hab : pyEqEntries a b <;> cases hba : pyEqEntries b a
                · rfl
                · exact absurd (IHd b a (by omega) hndb hnda hw.2 hv.2 hlen.symm hba)
                    (by simp [hab])
                · exact absurd (IHd a b hsz2 hnda hndb hv.2 hw.2 hlen hab)
                    (by simp [hba])
                · rfl
              rw [hE, beqComm]
            · have h1 : (VDict.len a == VDict.len b) = false := by
                simpa using hlen
              have h2 : (VDict.len b == VDict.len a) = false := by
                simpa using (fun h => hlen h.symm)
              rw [h1, h2, Bool.false_and, Bool.false_and]
      · -- Lists
        intro xs ys hsz hxs hys
        cases xs <;> cases ys <;> (try rfl)
        case cons.cons x tlx y tly =>
            simp only [pyEqList]
            simp only [wfVList, Bool.and_eq_true] at hxs hys
            have h1 : sizeOf x + sizeOf y ≤ n := by simp at hsz; omega
            have h2 : sizeOf tlx + sizeOf tly ≤ n := by simp at hsz; omega
            rw [IHv x y h1 hxs.1 hys.1, IHl tlx tly h2 hxs.2 hys.2]
      · -- Dict entries
        intro a b hsz hnda hndb hwa hwb hlen hE
        rw [pyEqEntries_iff]
        intro k w hkw
        have hsub : ∀ k1 ∈ VDict.keys a, k1 ∈ VDict.keys b := by
          intro k1 hk1
          obtain ⟨v1, hv1⟩ := mem_keys_exists_entry a k1 hk1
          obtain ⟨w1, hw1, _⟩ := (pyEqEntries_iff a b).mp hE k1 v1 hv1
          exact find_some_mem_keys b k1 w1 hw1
        have hmem : k ∈ VDict.keys a := by
          refine keys_subset_rev (VDict.keys a) (VDict.keys b) hnda hndb hsub ?_
            k (entryMem_mem_keys b k w hkw)
          rw [← VDict.len_eq_keys_length, ← VDict.len_eq_keys_length, hlen]
        obtain ⟨v, hva⟩ := mem_keys_exists_entry a k hmem
        obtain ⟨w1, hw1, hpy⟩ := (pyEqEntries_iff a b).mp hE k v hva
        have hw1w : w1 = w := by
          have := entryMem_find_nodup b hndb k w hkw
          rw [this] at hw1
          exact (Option.some.injEq _ _ ▸ hw1).symm
        rw [hw1w] at hpy
        refine ⟨v, entryMem_find_nodup a hnda k v hva, ?_⟩
        have hszv := entryMem_sizeOf a k v hva
        have hszw := entryMem_sizeOf b k w hkw
        rw [← IHv v w (by omega) (wfVDict_entry a hwa k v hva)
          (wfVDict_entry b hwb k w hkw)]
        exact hpy

/-- Symmetry of Python deep equality on well-formed values. -/
theorem pyEq_symm (a b : Value) (ha : wfValue a = true) (hb : wfValue b = true) :
    pyEq a b = pyEq b a :=
  (pyEq_symm_aux (sizeOf a + sizeOf b)).1 a b le_rfl ha hb

theorem strictGate_symm (a b : Value) (st : Bool) :
    strictGate a b st = strictGate b a st := by
  unfold strictGate
  rw [Bool.and_comm (isNum a) (isNum b), bneComm (typeName a) (typeName b)]

theorem boolCoerce_symm (x y : Value) : looseBoolEq x y = looseBoolEq y x := by
  unfold looseBoolEq
  cases h1 : normalize_bool x <;> cases h2 : normalize_bool y <;>
    simp [beqComm]

theorem boolHit_symm (a b : Value) (st : Bool) :
    boolHit a b st = boolHit b a st := by
  cases a <;> cases b <;> simp only [boolHit] <;>
    first
    | rfl
    | exact beqComm _ _
    | (cases st
       · simpa using boolCoerce_symm _ _
       · rfl)

theorem numHit_symm (a b : Value) : numHit a b = numHit b a := by
  unfold numHit
  cases h1 : pyFloatVal a <;> cases h2 : pyFloatVal b <;>
    (simp only [h1, h2]; try rfl)
  exact decide_eq_decide.mpr (by rw [abs_sub_comm])

theorem strSetEq_symm (xs ys : List String) : strSetEq xs ys = strSetEq ys xs :=
  Bool.and_comm _ _

theorem arrHit_symm (a b : Value) : arrHit a b = arrHit b a := by
  cases a <;> cases b <;> simp only [arrHit]
  rw [beqComm, strSetEq_symm]

/-! ## Claims -/

/-- C1 counterexample: the claim asserts `valuesEqual("10", 10, loose)`
returns true, but on the raw (un-normalized) values the oracle returns
false: Python `"10" == 10` is false, the strict gate is skipped in loose
mode, `normalize_bool` maps neither side to a boolean, and the numeric and
array steps do not apply to a string. -/
theorem C1_values_equal_raw_loose_cex :
    values_equal (Value.str "10") (Value.int 10) false = false := by decide

/-- C1 (amended): on raw values the oracle discriminates strings from
numbers in BOTH modes: `valuesEqual("10", 10, strict) = false` and
`valuesEqual("10", 10, loose) = false`.  The loose-mode string-to-number
coercion happens in normalization, not in the oracle: after loose
normalization the two values satisfy the oracle. -/
theorem C1_values_equal_str_num_amended :
    values_equal (Value.str "10") (Value.int 10) true = false ∧
    values_equal (Value.str "10") (Value.int 10) false = false ∧
    values_equal (normalize_value false (Value.str "10"))
      (normalize_value false (Value.int 10)) false = true := by
  refine ⟨by decide, by decide, by with_unfolding_all decide⟩

/-- C2 counterexample: the claim asserts `valuesEqual(b, n, strict)` is
false for every Boolean `b` and Number `n`, in particular
`valuesEqual(true, 1, strict) == false`; but the `mongo_val == oracle_val`
fast path at line 122 fires first, and Python `True == 1` holds, so the
oracle returns true. -/
theorem C2_true_matches_one_strict_cex :
    values_equal (Value.bool true) (Value.int 1) true = true := by decide

/-- C2 (amended): in strict mode a Boolean matches a Number exactly when
Python native equality holds, i.e. exactly when the Boolean's numeric
value (true = 1, false = 0) equals the number; in every other case the
strict type gate rejects the pair. -/
theorem C2_strict_bool_number_amended :
    ∀ (b : Bool) (n : ℤ) (q : ℚ),
      values_equal (Value.bool b) (Value.int n) true =
        decide ((if b then (1 : ℤ) else 0) = n) ∧
      values_equal (Value.bool b) (Value.float q) true =
        decide ((if b then (1 : ℚ) else 0) = q) := by
  intro b n q
  constructor
  · by_cases h : (if b then (1 : ℤ) else 0) = n <;>
      simp [values_equal, pyEq, strictGate, isNum, typeName, h]
  · by_cases h : (if b then (1 : ℚ) else 0) = q <;>
      simp [values_equal, pyEq, strictGate, isNum, typeName, h]

/-- `normalize_doc` and `normalize_value` agree on every input (the two
Python functions delegate to each other). -/
theorem normalize_doc_eq_normalize_value (doc : Value) (st : Bool) :
    normalize_doc doc st = normalize_value st doc := by
  cases doc <;> rfl

/-- C3 counterexample: normalization is NOT idempotent on documents.  The
raw key `'_x'` (quoted) does not start with `_`, so the first pass keeps
it and canonicalizes it to `_X`; the second pass sees the raw key `_X`,
which starts with `_` and is not `_id`, and drops the field.  So
normalizing `{"'_x'": 1}` once gives `{"_X": 1.0}` and twice gives `{}`. -/
theorem C3_normalize_idem_cex :
    normalize_value true (normalize_value true
      (Value.dict (VDict.cons "\x27_x\x27" (Value.int 1) VDict.nil))) ≠
    normalize_value true
      (Value.dict (VDict.cons "\x27_x\x27" (Value.int 1) VDict.nil)) := by
  with_unfolding_all decide

/-- C3 (amended): normalization is idempotent on every value whose kept
document keys (at every depth) canonicalize to stable keys that do not
begin with `_` — in particular on all scalar values, and on documents
with ordinary (unquoted, non-underscore) keys.  Document normalization
(`normalize_doc`) coincides with value normalization and inherits the
same property. -/
theorem C3_normalize_idem_amended :
    (∀ (st : Bool) (v : Value), goodKeys v = true →
      normalize_value st (normalize_value st v) = normalize_value st v) ∧
    (∀ (st : Bool) (doc : Value), goodKeys doc = true →
      normalize_doc (normalize_doc doc st) st = normalize_doc doc st) := by
  constructor
  · exact fun st v h => normalize_value_idem st v h
  · intro st doc h
    rw [normalize_doc_eq_normalize_value, normalize_doc_eq_normalize_value]
    exact normalize_value_idem st doc h

/-- C3 witness: a document with a normal key and a trimmable string value
satisfies `goodKeys`, and normalizing it twice equals normalizing once. -/
theorem C3_normalize_idem_amended_witness :
    goodKeys (Value.dict (VDict.cons "id" (Value.str " a ") VDict.nil)) = true ∧
    normalize_value true (normalize_value true
      (Value.dict (VDict.cons "id" (Value.str " a ") VDict.nil))) =
      normalize_value true
        (Value.dict (VDict.cons "id" (Value.str " a ") VDict.nil)) :=
  ⟨by decide, C3_normalize_idem_amended.1 true
    (Value.dict (VDict.cons "id" (Value.str " a ") VDict.nil)) (by decide)⟩

/-- C4 counterexample: the claim asserts a field is dropped exactly when
its CANONICAL key begins with `_` and is not `ID`, and that one layer of
quotes is stripped.  But the code drops on the RAW key (line 77): the raw
key `"_ID"` canonicalizes to `ID` (so by the claim it must be kept), yet
the document `{"_ID": 1}` normalizes to `{}`.  Also `strip` removes every
surrounding quote, not one layer: `canonicalizeKey('""A""') = "A"`, not
`'"A"'`. -/
theorem C4_canonKey_drop_cex :
    canonKey "_ID" = "ID" ∧
    normalize_doc (Value.dict (VDict.cons "_ID" (Value.int 1) VDict.nil)) true =
      Value.dict VDict.nil ∧
    canonKey "\x22\x22A\x22\x22" = "A" := by
  refine ⟨by decide, by decide, by decide⟩

/-- C4 (amended): key canonicalization strips ALL surrounding double
quotes, then all surrounding single quotes, upper-cases, then applies the
alias table (`_ID`/`GRP_ID` to `ID`, `CNT` to `COUNT`); and a field is
dropped exactly when its RAW key begins with `_` and the raw key is not
exactly `_id` (case-sensitive). -/
theorem C4_normalize_doc_key_amended :
    ∀ (st : Bool) (k : String) (v : Value),
      normalize_doc (Value.dict (VDict.cons k v VDict.nil)) st =
        (if pyStartsWith k "_" && k != "_id" then Value.dict VDict.nil
         else Value.dict (VDict.cons (canonKey k) (normalize_value st v) VDict.nil)) := by
  intro st k v
  by_cases h : (pyStartsWith k "_" && k != "_id") = true <;>
    simp [normalize_doc, normEntries, VDict.upsert, h]

/-- Python list equality implies equal lengths. -/
theorem pyEqList_length_eq : ∀ (xs ys : VList), pyEqList xs ys = true →
    xs.toList.length = ys.toList.length
  | .nil, .nil, _ => rfl
  | .nil, .cons _ _, h => by simp [pyEqList] at h
  | .cons _ _, .nil, h => by simp [pyEqList] at h
  | .cons x xs, .cons y ys, h => by
      simp only [pyEqList, Bool.and_eq_true] at h
      simp only [VList.toList, List.length_cons]
      exact congrArg (· + 1) (pyEqList_length_eq xs ys h.2)

/-- C5 counterexample: the claim says two equal-length arrays are equal
IFF the sets of canonical string encodings of their elements are
identical.  But `[1]` and `[1.0]` are judged equal by the Python `==`
fast path while their encoding sets (`"1"` vs `"1.0"`) differ, so the
"only if" direction fails. -/
theorem C5_array_set_iff_cex :
    values_equal (Value.list (VList.cons (Value.int 1) VList.nil))
      (Value.list (VList.cons (Value.float 1) VList.nil)) true = true ∧
    strSetEq ([Value.int 1].map encodeElem) ([Value.float 1].map encodeElem) = false := by
  refine ⟨by with_unfolding_all decide, by with_unfolding_all decide⟩

/-- C5 (amended): for two Arrays the oracle returns true iff native deep
equality holds OR (the lengths agree and the sets of canonical element
encodings are identical); arrays of different lengths are never equal;
and in particular `valuesEqual([1,1,2], [1,2,2], strict) = true` (set
collapse). -/
theorem C5_array_equality_amended :
    (∀ (xs ys : VList) (st : Bool),
      values_equal (Value.list xs) (Value.list ys) st =
        (pyEq (Value.list xs) (Value.list ys) ||
          ((xs.toList.length == ys.toList.length) &&
            strSetEq (xs.toList.map encodeElem) (ys.toList.map encodeElem)))) ∧
    (∀ (xs ys : VList) (st : Bool), xs.toList.length ≠ ys.toList.length →
      values_equal (Value.list xs) (Value.list ys) st = false) ∧
    values_equal
      (Value.list (VList.cons (Value.int 1) (VList.cons (Value.int 1)
        (VList.cons (Value.int 2) VList.nil))))
      (Value.list (VList.cons (Value.int 1) (VList.cons (Value.int 2)
        (VList.cons (Value.int 2) VList.nil)))) true = true := by
  have main : ∀ (xs ys : VList) (st : Bool),
      values_equal (Value.list xs) (Value.list ys) st =
        (pyEq (Value.list xs) (Value.list ys) ||
          ((xs.toList.length == ys.toList.length) &&
            strSetEq (xs.toList.map encodeElem) (ys.toList.map encodeElem))) := by
    intro xs ys st
    by_cases hp : pyEq (Value.list xs) (Value.list ys) = true
    · simp [values_equal, hp]
    · simp only [Bool.not_eq_true] at hp
      simp [values_equal, hp, strictGate, isNum, typeName, boolHit,
        looseBoolEq, normalize_bool, numHit, pyFloatVal, arrHit]
  refine ⟨main, ?_, by with_unfolding_all decide⟩
  intro xs ys st hlen
  rw [main]
  have hp : pyEq (Value.list xs) (Value.list ys) = false := by
    cases h : pyEq (Value.list xs) (Value.list ys)
    · rfl
    · exact absurd (pyEqList_length_eq xs ys (by simpa [pyEq] using h)) hlen
  simp [hp, hlen]

/-- C5 witness (for the different-length hypothesis). -/
theorem C5_array_equality_amended_witness :
    values_equal (Value.list (VList.cons (Value.int 1) VList.nil))
      (Value.list VList.nil) true = false :=
  C5_array_equality_amended.2.1 (VList.cons (Value.int 1) VList.nil) VList.nil true
    (by decide)

/-- In strict mode the boolean step never fires; in loose mode it can fire
for two numbers only when both coerce to the same boolean, which forces
the two numeric values to be equal — so on numbers the boolean step never
decides anything that the `==` fast path had not already decided. -/
theorem boolHit_num_imp : ∀ (a b : Value) (st : Bool), isNum a = true →
    isNum b = true → boolHit a b st = true → pyEq a b = true := by
  intro a b st ha hb h
  cases a <;> simp [isNum] at ha <;> cases b <;> simp [isNum] at hb
  case int.int n m =>
    simp only [boolHit, looseBoolEq, normalize_bool] at h
    split at h
    · simp at h
    · split_ifs at h with h1 h2 h3 h4 h3 h4 <;> simp_all [pyEq]
  case int.float n q =>
    simp only [boolHit, looseBoolEq, normalize_bool] at h
    split at h
    · simp at h
    · split_ifs at h with h1 h2 h3 h4 h3 h4 <;> simp_all [pyEq]
  case float.int q m =>
    simp only [boolHit, looseBoolEq, normalize_bool] at h
    split at h
    · simp at h
    · split_ifs at h with h1 h2 h3 h4 h3 h4 <;> simp_all [pyEq]
  case float.float p q =>
    simp only [boolHit, looseBoolEq, normalize_bool] at h
    split at h
    · simp at h
    · split_ifs at h with h1 h2 h3 h4 h3 h4 <;> simp_all [pyEq]

/-- C6 counterexample: the claimed iff fails for large integers because
line 152 converts both sides with `float()` before subtracting: `2^60`
and `2^60 + 1` both round to the binary64 `2^60`, so
`valuesEqual(2^60, 2^60+1, strict)` returns true although
`|a - b| = 1 ≥ 1e-4`. -/
theorem C6_float_collapse_cex :
    values_equal (Value.int (2 ^ 60)) (Value.int (2 ^ 60 + 1)) true = true ∧
    ¬(|(2 ^ 60 : ℚ) - (2 ^ 60 + 1 : ℚ)| < 1 / 10000) := by
  refine ⟨by with_unfolding_all decide, by with_unfolding_all decide⟩

/-- C6 (amended): for two Numbers on which the `float()` conversions of
line 152 are lossless — every float, and ints of magnitude at most `2^53`
— the oracle returns true iff `|a - b| < 1e-4`, in either mode; in
particular `valuesEqual(1.00005, 1.0, strict)` is true and
`valuesEqual(1.0002, 1.0, strict)` is false.  Beyond `2^53` the
conversions can collapse distinct integers (see the counterexample). -/
theorem C6_numeric_tolerance_amended :
    (∀ (a b : Value) (st : Bool), exactNum a = true → exactNum b = true →
      values_equal a b st =
        decide (|(asNum? a).getD 0 - (asNum? b).getD 0| < 1/10000)) ∧
    values_equal (Value.float (100005/100000)) (Value.float 1) true = true ∧
    values_equal (Value.float (10002/10000)) (Value.float 1) true = false := by
  refine ⟨?_, by with_unfolding_all decide, by with_unfolding_all decide⟩
  intro a b st hea heb
  have ha : isNum a = true := by cases a <;> simp_all [exactNum, isNum]
  have hb : isNum b = true := by cases b <;> simp_all [exactNum, isNum]
  have hfa : pyFloatVal a = some ((asNum? a).getD 0) := by
    cases a <;> simp_all [exactNum, isNum, pyFloatVal, asNum?, floatOfInt]
  have hfb : pyFloatVal b = some ((asNum? b).getD 0) := by
    cases b <;> simp_all [exactNum, isNum, pyFloatVal, asNum?, floatOfInt]
  have hnumHit : numHit a b =
      decide (|(asNum? a).getD 0 - (asNum? b).getD 0| < 1/10000) := by
    simp [numHit, hfa, hfb]
  have harr : arrHit a b = false := by
    cases a <;> simp [isNum] at ha <;> cases b <;> simp [isNum] at hb <;> simp [arrHit]
  by_cases hp : pyEq a b = true
  · have hnum : (asNum? a).getD 0 = (asNum? b).getD 0 := by
      cases a <;> simp [isNum] at ha <;> cases b <;> simp [isNum] at hb <;>
        simp_all [pyEq, asNum?]
    simp [values_equal, hp, hnum]
  · have hbh : boolHit a b st = false := by
      cases h : boolHit a b st
      · rfl
      · exact absurd (boolHit_num_imp a b st ha hb h) hp
    simp only [Bool.not_eq_true] at hp
    have hgate : strictGate a b st = false := by
      cases a <;> simp [isNum] at ha <;> cases b <;> simp [isNum] at hb <;>
        simp [strictGate, isNum]
    have hve : values_equal a b st = numHit a b := by
      simp [values_equal, hp, hgate, hbh, harr]
    rw [hve, hnumHit]

/-- C6 witness. -/
theorem C6_numeric_tolerance_amended_witness :
    values_equal (Value.int 3) (Value.float 3) false =
      decide (|(asNum? (Value.int 3)).getD 0 - (asNum? (Value.float 3)).getD 0| < 1/10000) :=
  C6_numeric_tolerance_amended.1 (Value.int 3) (Value.float 3) false
    (by decide) (by decide)

/-- C7: the Dataset Comparator returns `COUNT_MISMATCH` whenever the two
collections have different lengths (checked before any sorting or
pairing), and two empty collections give a successful `count=0` verdict
labeled per mode, with no sort or pairing attempted. -/
theorem C7_count_mismatch_and_empty :
    ∀ (m o : List Value) (sb : Option String) (st : Bool),
      (m.length ≠ o.length →
        compare_results m o sb st =
          .ok (false, "COUNT_MISMATCH:MongoDB=" ++ toString m.length ++
            ",Oracle=" ++ toString o.length)) ∧
      (m = [] → o = [] →
        compare_results m o sb st = .ok (true, matchLabel st ++ ":count=0")) := by
  intro m o sb st
  constructor
  · intro h
    simp [compare_results, bne_iff_ne, h]
  · intro hm ho
    subst hm; subst ho
    simp [compare_results]

/-- C8: the Escalation Policy runs strict first (success reports mode
`strict` with the strict message); on strict failure it re-runs loose
(success reports mode `loose`); on double failure it reports the
loose-mode message and mode `none` (the strict message is discarded).
The `{"flag": true}` vs `{"flag": "true"}` dataset fails strict but
escalates to `LOOSE_MATCH:count=1` with mode `loose`. -/
theorem C8_escalation_policy :
    (∀ (m o : List Value) (sb : Option String) (msg : String),
      compare_results m o sb true = .ok (true, msg) →
      compare_with_fallback m o sb = .ok (true, msg, "strict")) ∧
    (∀ (m o : List Value) (sb : Option String) (msg1 msg2 : String),
      compare_results m o sb true = .ok (false, msg1) →
      compare_results m o sb false = .ok (true, msg2) →
      compare_with_fallback m o sb = .ok (true, msg2, "loose")) ∧
    (∀ (m o : List Value) (sb : Option String) (msg1 msg2 : String),
      compare_results m o sb true = .ok (false, msg1) →
      compare_results m o sb false = .ok (false, msg2) →
      compare_with_fallback m o sb = .ok (false, msg2, "none")) ∧
    compare_with_fallback
      [Value.dict (VDict.cons "flag" (Value.bool true) VDict.nil)]
      [Value.dict (VDict.cons "flag" (Value.str "true") VDict.nil)] none =
      .ok (true, "LOOSE_MATCH:count=1", "loose") := by
  refine ⟨?_, ?_, ?_, by with_unfolding_all rfl⟩
  · intro m o sb msg h1
    unfold compare_with_fallback
    rw [h1]
    rfl
  · intro m o sb msg1 msg2 h1 h2
    unfold compare_with_fallback
    rw [h1]
    show compare_results m o sb false >>= _ = _
    rw [h2]
    rfl
  · intro m o sb msg1 msg2 h1 h2
    unfold compare_with_fallback
    rw [h1]
    show compare_results m o sb false >>= _ = _
    rw [h2]
    rfl

/-- C8 witness (strict-success clause at a concrete input). -/
theorem C8_escalation_policy_witness :
    compare_with_fallback [Value.dict (VDict.cons "a" (Value.int 1) VDict.nil)]
      [Value.dict (VDict.cons "a" (Value.int 1) VDict.nil)] none =
      .ok (true, "STRICT_MATCH:count=1", "strict") :=
  C8_escalation_policy.1 [Value.dict (VDict.cons "a" (Value.int 1) VDict.nil)]
    [Value.dict (VDict.cons "a" (Value.int 1) VDict.nil)] none
    "STRICT_MATCH:count=1" (by with_unfolding_all rfl)

/-- C10: the Value Equality Oracle is symmetric — on well-formed values
(documents are mappings, i.e. have no duplicate keys, which is every
value the Python code can receive from `json.load`), swapping the two
sides never changes the verdict, in either mode.  Every step of
`values_equal` is individually symmetric: Python `==`, the strict type
gate, the boolean step, the numeric-tolerance step and the
array-as-set step. -/
theorem C10_values_equal_symm :
    ∀ (a b : Value) (st : Bool), wfValue a = true → wfValue b = true →
      values_equal a b st = values_equal b a st := by
  intro a b st ha hb
  unfold values_equal
  rw [pyEq_symm a b ha hb, strictGate_symm a b st, boolHit_symm a b st,
    numHit_symm a b, arrHit_symm a b]

/-- C10 witness. -/
theorem C10_values_equal_symm_witness :
    values_equal (Value.dict (VDict.cons "a" (Value.int 1) VDict.nil))
      (Value.str "x") true =
    values_equal (Value.str "x")
      (Value.dict (VDict.cons "a" (Value.int 1) VDict.nil)) true :=
  C10_values_equal_symm (Value.dict (VDict.cons "a" (Value.int 1) VDict.nil))
    (Value.str "x") true (by decide) (by decide)

/-- C9 counterexample: the claim says that when sorting raises, BOTH
collections proceed in their original input order.  But the code sorts
and reassigns the left collection first; when only the right sort raises
(here on the non-document element `5`), the sorted left is paired against
the original right.  `compare_results_spec` (modelled from the spec's
words) pairs `{"id":"b"}` with `{"id":"z"}` and reports `MongoDB=b`,
while the code pairs the sorted left's `{"id":"a"}` first and reports
`MongoDB=a`. -/
theorem C9_sort_fallback_cex :
    compare_results
      [Value.dict (VDict.cons "id" (Value.str "b") VDict.nil),
        Value.dict (VDict.cons "id" (Value.str "a") VDict.nil)]
      [Value.dict (VDict.cons "id" (Value.str "z") VDict.nil), Value.int 5]
      none true =
      .ok (false,
        "DOC_MISMATCH:row=0,Field \x27ID\x27 mismatch: MongoDB=a (str), Oracle=z (str)") ∧
    compare_results_spec
      [Value.dict (VDict.cons "id" (Value.str "b") VDict.nil),
        Value.dict (VDict.cons "id" (Value.str "a") VDict.nil)]
      [Value.dict (VDict.cons "id" (Value.str "z") VDict.nil), Value.int 5]
      none true =
      .ok (false,
        "DOC_MISMATCH:row=0,Field \x27ID\x27 mismatch: MongoDB=b (str), Oracle=z (str)") := by
  exact ⟨by with_unfolding_all rfl, by with_unfolding_all rfl⟩

/-- C9 (amended): a sorting failure is recovered, never surfaced — the
comparator proceeds to the row-matching phase and produces its verdict —
but the collections it proceeds with are: both originals when the LEFT
sort raises (the right sort is then never attempted), and the SORTED left
with the original right when only the right sort raises. -/
theorem C9_sort_failure_amended :
    ∀ (m o : List Value) (sb : Option String) (st : Bool),
      m.length = o.length → m.length ≠ 0 →
      ((trySort (keyFn sb) m = none →
          compare_results m o sb st = compareAfterSort m o st) ∧
        (∀ m1, trySort (keyFn sb) m = some m1 → trySort (keyFn sb) o = none →
          compare_results m o sb st = compareAfterSort m1 o st)) := by
  intro m o sb st hlen hne
  have h1 : (m.length != o.length) = false := by simp [hlen]
  have h2 : ¬((m.length == 0) = true) := by simpa using hne
  constructor
  · intro hs
    simp [compare_results, h1, h2, sortPhase, hs]
  · intro m1 hs1 hs2
    simp [compare_results, h1, h2, sortPhase, hs1, hs2]

/-- C9 witness (left sort raises on a non-document element: the verdict
is computed on the original order). -/
theorem C9_sort_failure_amended_witness :
    compare_results [Value.int 7] [Value.int 8] none true =
      compareAfterSort [Value.int 7] [Value.int 8] true :=
  (C9_sort_failure_amended [Value.int 7] [Value.int 8] none true rfl
    (by decide)).1 (by decide)

/-- C7 witness. -/
theorem C7_count_mismatch_and_empty_witness :
    compare_results [Value.dict VDict.nil] [] none true =
      .ok (false, "COUNT_MISMATCH:MongoDB=" ++ toString (1 : ℕ) ++
        ",Oracle=" ++ toString (0 : ℕ)) ∧
    compare_results [] [] none false = .ok (true, matchLabel false ++ ":count=0") := by
  refine ⟨(C7_count_mismatch_and_empty [Value.dict VDict.nil] [] none true).1 (by decide),
    (C7_count_mismatch_and_empty [] [] none false).2 rfl rfl⟩

end MPB
